import Mathlib

/-!
Shallow embedding of the crons component (src/component/public.ts).

The record store and the deferred-execution service ("scheduler") are
modelled explicitly as lists inside a single `State`; every mutation
handler becomes a function `... → Except String State` (or
`Except String (State × α)`), where `Except.error` models the thrown
error aborting the whole transaction, so an erroring call leaves no
effect behind.  Times are integers (epoch milliseconds).  The external
cron-expression evaluator is an opaque parameter (`CronParser`), exactly
as the component treats it.
-/

namespace Crons

/-- Lifecycle states of a job in the deferred-execution service
(the `state.kind` field of a system scheduled-functions document). -/
inductive JobState
  | pending
  | inProgress
  | completed
  | failed
  | canceled
  deriving DecidableEq, Repr

/-- What a system scheduled job will run: the component's own
`rescheduler` with a cron record id, or a user payload dispatch
(function handle plus argument blob, both opaque to the component). -/
inductive Target
  | rescheduler (cronId : Nat)
  | payload (functionHandle : String) (args : String)
  deriving DecidableEq, Repr

/-- One document of the scheduler's system table, as read through
ctx.db.system.get: lifecycle state, the time it was scheduled for, and
its target. -/
structure SysJob where
  state : JobState
  scheduledTime : Int
  target : Target
  deriving DecidableEq, Repr

/-- The schedule union type of public.ts: a cron expression or an
interval in milliseconds. -/
inductive Schedule
  | cron (cronspec : String)
  | interval (ms : Int)
  deriving DecidableEq, Repr

/-- One row of the crons table. -/
structure Cron where
  id : Nat
  name : Option String
  schedule : Schedule
  functionHandle : String
  args : String
  schedulerJobId : Option Nat
  executionJobId : Option Nat
  deriving DecidableEq, Repr

/-- The whole world the component mutates: the crons table with its id
allocator, and the scheduler's job table with its handle allocator. -/
structure State where
  crons : List Cron
  nextCronId : Nat
  jobs : List (Nat × SysJob)
  nextJobId : Nat
  deriving DecidableEq, Repr

/-- The external cron-expression evaluator, treated as a black box:
whether an expression parses, and the next occurrence after a time. -/
structure CronParser where
  valid : String → Bool
  next : String → Int → Int

/-- The empty deployment: no cron records, no scheduled jobs. -/
def initState : State := { crons := [], nextCronId := 0, jobs := [], nextJobId := 0 }

/-- ctx.db.get on the crons table. -/
def dbGet (s : State) (i : Nat) : Option Cron :=
  s.crons.find? (fun c => c.id = i)

/-- Does a record carry exactly this name? -/
def matchesName (n : String) (c : Cron) : Bool :=
  c.name = some n

/-- The name-index query followed by .unique(): null when no record has
the name, the record when exactly one does, and a thrown error when
several do. -/
def uniqueByName (s : State) (n : String) : Except String (Option Cron) :=
  match s.crons.filter (matchesName n) with
  | [] => .ok none
  | [c] => .ok (some c)
  | _ => .error "unique query returned more than one result"

/-- The per-record action of patching the schedulerJobId field. -/
def patchFn (i h : Nat) (c : Cron) : Cron :=
  if c.id = i then { c with schedulerJobId := some h } else c

/-- ctx.db.patch of the schedulerJobId field of one record. -/
def patchSchedulerJobId (s : State) (i h : Nat) : State :=
  { s with crons := s.crons.map (patchFn i h) }

/-- ctx.scheduler.runAt: appends a fresh pending job for time t and
returns its handle. -/
def runAt (s : State) (t : Int) (tgt : Target) : State × Nat :=
  ({ s with
      jobs := s.jobs ++ [(s.nextJobId, { state := .pending, scheduledTime := t, target := tgt })],
      nextJobId := s.nextJobId + 1 },
   s.nextJobId)

/-- ctx.scheduler.runAfter: runAt at now plus the delay. -/
def runAfter (s : State) (now delay : Int) (tgt : Target) : State × Nat :=
  runAt s (now + delay) tgt

/-- The per-job action of canceling a handle. -/
def cancelFn (h : Nat) (p : Nat × SysJob) : Nat × SysJob :=
  if p.1 = h ∧ (p.2.state = .pending ∨ p.2.state = .inProgress) then
    (p.1, { p.2 with state := .canceled })
  else p

/-- ctx.scheduler.cancel: a pending or in-progress job becomes
canceled; canceling a finished (or unknown) handle is a no-op. -/
def cancel (s : State) (h : Nat) : State :=
  { s with jobs := s.jobs.map (cancelFn h) }

/-- ctx.db.system.get on a scheduler job handle. -/
def sysGet (s : State) (h : Nat) : Option SysJob :=
  (s.jobs.find? (fun p => p.1 = h)).map Prod.snd

/-- calculateNextRun of public.ts: pure arithmetic for intervals;
for cron schedules, parseExpression (which throws on an invalid
expression) followed by the evaluator's next occurrence. -/
def calculateNextRun (P : CronParser) (lastScheduled : Int) (sch : Schedule) :
    Except String Int :=
  match sch with
  | .interval ms => .ok (lastScheduled + ms)
  | .cron spec =>
      if P.valid spec then .ok (P.next spec lastScheduled)
      else .error "Invalid cronspec"

/-- scheduleNextRun of public.ts: compute the next run time, arm the
rescheduler for it, and patch the record with the returned handle. -/
def scheduleNextRun (P : CronParser) (s : State) (i : Nat) (lastScheduled : Int)
    (sch : Schedule) : Except String State :=
  match calculateNextRun P lastScheduled sch with
  | .error e => .error e
  | .ok nextRun =>
      let r := runAt s nextRun (Target.rescheduler i)
      .ok (patchSchedulerJobId r.1 i r.2)

/-- validateSchedule of public.ts: intervals below 1000 ms are
rejected, cron expressions must parse. -/
def validateSchedule (P : CronParser) (sch : Schedule) : Except String Unit :=
  match sch with
  | .interval ms => if ms < 1000 then .error "Interval must be at least 1000ms" else .ok ()
  | .cron spec => if P.valid spec then .ok () else .error "Invalid cronspec"

/-- The duplicate-name guard at the top of register.  The source reads
if (name && await query.unique()), so by JavaScript truthiness an
absent name AND the empty-string name both skip the check entirely. -/
def checkName (s : State) (name : Option String) : Except String Unit :=
  match name with
  | none => .ok ()
  | some n =>
      if n = "" then .ok ()
      else
        match uniqueByName s n with
        | .error e => .error e
        | .ok (some _) => .error "Cron with this name already exists"
        | .ok none => .ok ()

/-- The register mutation: duplicate-name check, schedule validation,
insert, then scheduleNextRun anchored at the current wall clock.
Returns the new record id. -/
def register (P : CronParser) (s : State) (now : Int) (name : Option String)
    (schedule : Schedule) (functionHandle args : String) :
    Except String (State × Nat) :=
  match checkName s name with
  | .error e => .error e
  | .ok _ =>
    match validateSchedule P schedule with
    | .error e => .error e
    | .ok _ =>
      let i := s.nextCronId
      let newCron : Cron :=
        { id := i
          name := name
          schedule := schedule
          functionHandle := functionHandle
          args := args
          schedulerJobId := none
          executionJobId := none }
      let s1 : State :=
        { s with crons := s.crons ++ [newCron], nextCronId := i + 1 }
      match scheduleNextRun P s1 i now schedule with
      | .error e => .error e
      | .ok s2 => .ok (s2, i)

/-- The identifier union accepted by get and del. -/
inductive Identifier
  | id (i : Nat)
  | name (n : String)
  deriving DecidableEq, Repr

/-- The get query: point lookup by id, or name-index .unique(). -/
def get (s : State) (ident : Identifier) : Except String (Option Cron) :=
  match ident with
  | .id i => .ok (dbGet s i)
  | .name n => uniqueByName s n

/-- The list query. -/
def list (s : State) : List Cron :=
  s.crons

/-- The identifier resolution step at the top of del: point lookup by
id or name-index unique query, a not-found error when either finds no
record. -/
def resolveIdent (s : State) (ident : Identifier) : Except String Cron :=
  match ident with
  | .id i =>
    match dbGet s i with
    | none => .error "Cron not found"
    | some c => .ok c
  | .name n =>
    match uniqueByName s n with
    | .error e => .error e
    | .ok none => .error "Cron not found"
    | .ok (some c) => .ok c

/-- The del mutation: resolve the identifier (not-found error when it
resolves to nothing), require a scheduling handle (not-scheduled error
otherwise), cancel it, cancel the execution handle when present, and
delete the record. -/
def del (s : State) (ident : Identifier) : Except String State :=
  match resolveIdent s ident with
  | .error e => .error e
  | .ok c =>
    match c.schedulerJobId with
    | none => .error "Cron not scheduled"
    | some h =>
      let s1 := cancel s h
      let s2 := match c.executionJobId with
        | some e => cancel s1 e
        | none => s1
      .ok { s2 with crons := s2.crons.filter (fun x => x.id ≠ c.id) }

/-- The rescheduler internal mutation, the self-re-arming worker: load
the record, require its scheduling handle, require that handle's own
job to exist and to still be pending or in progress; skip dispatching
the payload when the previous execution job is still pending or in
progress (a missing execution job counts as finished); then arm the
next run anchored at the scheduled time recorded on the current
scheduling handle.  Note the handle returned by the payload dispatch is
discarded: the source never patches executionJobId. -/
def rescheduler (P : CronParser) (s : State) (now : Int) (i : Nat) :
    Except String State :=
  match dbGet s i with
  | none => .error "Cron not found"
  | some cronJob =>
    match cronJob.schedulerJobId with
    | none => .error "Cron not scheduled"
    | some schedulerJobId =>
      match sysGet s schedulerJobId with
      | none => .error "Scheduler job not found"
      | some schedulerJob =>
        if schedulerJob.state ≠ JobState.pending ∧ schedulerJob.state ≠ JobState.inProgress then
          .error "Running in a job with an unexpected state"
        else
          let stillRunning : Bool :=
            match cronJob.executionJobId with
            | some e =>
                match sysGet s e with
                | some ej => decide (ej.state = JobState.pending ∨ ej.state = JobState.inProgress)
                | none => false
            | none => false
          let s1 :=
            if stillRunning then s
            else (runAfter s now 0 (Target.payload cronJob.functionHandle cronJob.args)).1
          scheduleNextRun P s1 i schedulerJob.scheduledTime cronJob.schedule

/-- The scheduler jobs that dispatch a user payload (as opposed to the
rescheduler itself). -/
def payloadJobs (s : State) : List (Nat × SysJob) :=
  s.jobs.filter (fun p =>
    match p.2.target with
    | .payload _ _ => true
    | _ => false)

/-- The scheduled times of every rescheduler firing ever armed for a
given cron record, in arming order. -/
def armedTimes (s : State) (i : Nat) : List Int :=
  s.jobs.filterMap (fun p =>
    match p.2.target with
    | .rescheduler j => if j = i then some p.2.scheduledTime else none
    | _ => none)

/-- Every scheduler-job handle in the table is below the allocator. -/
def KeysBelow (s : State) : Prop :=
  ∀ p ∈ s.jobs, p.1 < s.nextJobId

/-- Every cron record id in the table is below the allocator. -/
def IdsBelow (s : State) : Prop :=
  ∀ c ∈ s.crons, c.id < s.nextCronId

/-- How many live records carry a given name. -/
def nameCount (s : State) (n : String) : Nat :=
  (s.crons.filter (matchesName n)).length

/-- A schedule the evaluator accepts: any interval, or a cron
expression the parser recognises. -/
def scheduleOk (P : CronParser) : Schedule → Bool
  | .interval _ => true
  | .cron spec => P.valid spec

/-- Every record in the table carries a schedule the evaluator
accepts (true of every record created through register). -/
def SchedulesOk (P : CronParser) (s : State) : Prop :=
  ∀ c ∈ s.crons, scheduleOk P c.schedule = true

/-- At most one live record per non-empty name. -/
def NamesUnique (s : State) : Prop :=
  ∀ n : String, n ≠ "" → nameCount s n ≤ 1

/-- Run the rescheduler once per entry of nows, each entry being the
wall-clock time at which that firing actually executes. -/
def fireAll (P : CronParser) (i : Nat) : State → List Int → Except String State
  | s, [] => .ok s
  | s, now :: rest =>
    match rescheduler P s now i with
    | .error e => .error e
    | .ok s' => fireAll P i s' rest

/-- The records a given identifier matches. -/
def identMatches (s : State) : Identifier → List Cron
  | .id i => s.crons.filter (fun c => c.id = i)
  | .name n => s.crons.filter (matchesName n)

/-- One operation of the public surface as a step relation on
deployment states.  get and list are queries and leave the state
unchanged; a mutation that throws aborts its transaction, so only
successful mutations change the state. -/
inductive Step (P : CronParser) : State → State → Prop
  | ofRegister (s : State) (now : Int) (name : Option String) (sch : Schedule)
      (fh args : String) (s' : State) (i : Nat) :
      register P s now name sch fh args = .ok (s', i) → Step P s s'
  | ofDel (s : State) (ident : Identifier) (s' : State) :
      del s ident = .ok s' → Step P s s'
  | ofRescheduler (s : State) (now : Int) (i : Nat) (s' : State) :
      rescheduler P s now i = .ok s' → Step P s s'
  | ofGet (s : State) (ident : Identifier) : Step P s s
  | ofList (s : State) : Step P s s

/-- States reachable from the empty deployment by any sequence of
public operations. -/
inductive Reachable (P : CronParser) : State → Prop
  | init : Reachable P initState
  | step {s s' : State} : Reachable P s → Step P s s' → Reachable P s'

/-- A concrete cron evaluator instance used for witnesses: every
expression is valid and the next occurrence is one millisecond later. -/
def P0 : CronParser := { valid := fun _ => true, next := fun _ t => t + 1 }

/-- A cron evaluator instance rejecting every expression, used to
witness validation failures. -/
def P1 : CronParser := { valid := fun _ => false, next := fun _ t => t }

/-- The record created by the first empty-name register below. -/
def emptyNameCron1 : Cron :=
  { id := 0
    name := some ""
    schedule := .interval 1000
    functionHandle := "f"
    args := "a"
    schedulerJobId := some 0
    executionJobId := none }

/-- The record created by the second empty-name register below. -/
def emptyNameCron2 : Cron :=
  { id := 1
    name := some ""
    schedule := .interval 1000
    functionHandle := "g"
    args := "b"
    schedulerJobId := some 1
    executionJobId := none }

/-- The deployment after registering an interval job under the
empty-string name from the empty deployment (the literal output of
that register call, checked below). -/
def exampleState1 : State :=
  { crons := [emptyNameCron1]
    nextCronId := 1
    jobs := [(0, { state := .pending, scheduledTime := 1000, target := .rescheduler 0 })]
    nextJobId := 1 }

/-- The deployment after registering a second interval job under the
empty-string name on top of exampleState1: the second register
succeeds because the JavaScript truthiness test skips the duplicate
check for the empty string. -/
def exampleState2 : State :=
  { crons := [emptyNameCron1, emptyNameCron2]
    nextCronId := 2
    jobs := [(0, { state := .pending, scheduledTime := 1000, target := .rescheduler 0 }),
      (1, { state := .pending, scheduledTime := 1000, target := .rescheduler 1 })]
    nextJobId := 2 }

/-- A record whose executionJobId (5) refers to no job in the
scheduler table while its scheduling handle (1) is live. -/
def staleExecCron : Cron :=
  { id := 0
    name := none
    schedule := .interval 1000
    functionHandle := "f"
    args := "a"
    schedulerJobId := some 1
    executionJobId := some 5 }

/-- The firing input for the stored-execution-handle question: the
record points at execution job 5, which the scheduler table has no row
for, and at the pending scheduling job 1. -/
def staleExecState : State :=
  { crons := [staleExecCron]
    nextCronId := 1
    jobs := [(1, { state := .pending, scheduledTime := 2000, target := .rescheduler 0 })]
    nextJobId := 2 }

/-- The literal output of firing the rescheduler on staleExecState at
wall-clock 2500: the payload was dispatched (job 2) and the next
firing armed (job 3, patched into schedulerJobId), but executionJobId
still holds the dangling handle 5 - the dispatch handle is discarded
by the source, which never writes executionJobId. -/
def staleExecResult : State :=
  { crons := [
      { id := 0
        name := none
        schedule := .interval 1000
        functionHandle := "f"
        args := "a"
        schedulerJobId := some 3
        executionJobId := some 5 }]
    nextCronId := 1
    jobs := [(1, { state := .pending, scheduledTime := 2000, target := .rescheduler 0 }),
      (2, { state := .pending, scheduledTime := 2500, target := .payload "f" "a" }),
      (3, { state := .pending, scheduledTime := 3000, target := .rescheduler 0 })]
    nextJobId := 4 }

/-- The record whose previous execution (handle 2) is still in
progress at firing time. -/
def overlapCron : Cron :=
  { id := 0
    name := none
    schedule := .interval 1000
    functionHandle := "f"
    args := "a"
    schedulerJobId := some 1
    executionJobId := some 2 }

/-- The overlap scenario: the scheduling handle (1) is pending and the
previous payload execution (2) is still in progress. -/
def overlapState : State :=
  { crons := [overlapCron]
    nextCronId := 1
    jobs := [(1, { state := .pending, scheduledTime := 1000, target := .rescheduler 0 }),
      (2, { state := .inProgress, scheduledTime := 500, target := .payload "f" "a" })]
    nextJobId := 3 }

/-- A record whose scheduling handle has already completed. -/
def staleFiringCron : Cron :=
  { id := 0
    name := none
    schedule := .interval 1000
    functionHandle := "f"
    args := "a"
    schedulerJobId := some 1
    executionJobId := none }

/-- The system job the stale firing runs under. -/
def staleFiringJob : SysJob :=
  { state := .completed, scheduledTime := 1000, target := .rescheduler 0 }

/-- A record whose scheduling handle (1) has already completed when
the driver runs: the stale-firing abort scenario. -/
def staleFiringState : State :=
  { crons := [staleFiringCron]
    nextCronId := 1
    jobs := [(1, staleFiringJob)]
    nextJobId := 2 }

/-- The scheduled record named daily. -/
def dailyCron : Cron :=
  { id := 0
    name := some "daily"
    schedule := .interval 60000
    functionHandle := "f"
    args := "a"
    schedulerJobId := some 0
    executionJobId := none }

/-- A deployment holding one scheduled record named daily, used to
witness the deletion and lookup properties (it is the literal output
of registering that job at time 0 from the empty deployment). -/
def dailyState : State :=
  { crons := [dailyCron]
    nextCronId := 1
    jobs := [(0, { state := .pending, scheduledTime := 60000, target := .rescheduler 0 })]
    nextJobId := 1 }

/-- The anonymous 1000 ms interval record of the cadence scenario. -/
def cadenceCron : Cron :=
  { id := 0
    name := none
    schedule := .interval 1000
    functionHandle := "f"
    args := "a"
    schedulerJobId := some 0
    executionJobId := none }

/-- The deployment after registering an anonymous 1000 ms interval job
at time 0 from the empty deployment: one record, one armed rescheduler
firing at 1000. -/
def cadenceState : State :=
  { crons := [cadenceCron]
    nextCronId := 1
    jobs := [(0, { state := .pending, scheduledTime := 1000, target := .rescheduler 0 })]
    nextJobId := 1 }

/-- The job appended by a payload dispatch with zero delay. -/
def payJob (now : Int) (fh args : String) : SysJob :=
  { state := .pending, scheduledTime := now + 0, target := .payload fh args }

/-- The job appended by arming a rescheduler firing for time t. -/
def armJob (t : Int) (i : Nat) : SysJob :=
  { state := .pending, scheduledTime := t, target := .rescheduler i }

/-- The invariant that carries the drift-free cadence argument: after
k firings of an interval job whose first firing was armed for
t0 + ms, the record still has an interval-ms schedule and no
execution handle, its current scheduling handle is a pending job
scheduled for t0 + (k+1)ms, and the firings armed so far were
scheduled for exactly t0 + ms, ..., t0 + (k+1)ms. -/
def CadenceInv (i : Nat) (ms t0 : Int) (k : Nat) (s : State) : Prop :=
  ∃ c h job,
    dbGet s i = some c ∧
    c.schedule = .interval ms ∧
    c.executionJobId = none ∧
    c.schedulerJobId = some h ∧
    sysGet s h = some job ∧
    job.state = .pending ∧
    job.scheduledTime = t0 + ms * ((k : Int) + 1) ∧
    KeysBelow s ∧
    armedTimes s i = (List.range (k + 1)).map (fun j : Nat => t0 + ms * ((j : Int) + 1))

/-- find? is the head of filter. -/
theorem find?_eq_head?_filter {α : Type} (p : α → Bool) (l : List α) :
    l.find? p = (l.filter p).head? := by
  induction l with
  | nil => rfl
  | cons a l ih =>
    by_cases h : p a
    · rw [List.find?_cons_of_pos _ h, List.filter_cons, if_pos h, List.head?_cons]
    · rw [List.find?_cons_of_neg _ h, List.filter_cons, if_neg h, ih]

/-- find? misses whenever filter is empty. -/
theorem find?_eq_none_of_filter_nil {α : Type} {p : α → Bool} {l : List α}
    (h : l.filter p = []) : l.find? p = none := by
  rw [find?_eq_head?_filter, h]; rfl

/-- Patching the scheduling handle leaves the record id alone. -/
theorem patchFn_id (i h : Nat) (c : Cron) : (patchFn i h c).id = c.id := by
  unfold patchFn; split <;> rfl

/-- Patching the scheduling handle leaves the name alone. -/
theorem patchFn_name (i h : Nat) (c : Cron) : (patchFn i h c).name = c.name := by
  unfold patchFn; split <;> rfl

/-- Patching the scheduling handle leaves the schedule alone. -/
theorem patchFn_schedule (i h : Nat) (c : Cron) :
    (patchFn i h c).schedule = c.schedule := by
  unfold patchFn; split <;> rfl

/-- Name matching is blind to the scheduling-handle patch. -/
theorem matchesName_patchFn (n : String) (i h : Nat) (c : Cron) :
    matchesName n (patchFn i h c) = matchesName n c := by
  unfold matchesName; rw [patchFn_name]

/-- Canceling never renumbers a job. -/
theorem cancelFn_fst (h : Nat) (p : Nat × SysJob) : (cancelFn h p).1 = p.1 := by
  unfold cancelFn; split <;> rfl

/-- Record lookup commutes with the scheduling-handle patch. -/
theorem find?_id_map_patchFn (cs : List Cron) (i h k : Nat) :
    (cs.map (patchFn i h)).find? (fun c => c.id = k)
      = (cs.find? (fun c => c.id = k)).map (patchFn i h) := by
  rw [List.find?_map]
  have hp : ((fun c => decide (c.id = k)) ∘ patchFn i h)
      = (fun c : Cron => decide (c.id = k)) := by
    funext c; simp [Function.comp, patchFn_id]
  rw [hp]

/-- Name filtering commutes with the scheduling-handle patch. -/
theorem filter_name_map_patchFn (cs : List Cron) (i h : Nat) (n : String) :
    (cs.map (patchFn i h)).filter (matchesName n)
      = (cs.filter (matchesName n)).map (patchFn i h) := by
  rw [List.filter_map]
  have hp : (matchesName n ∘ patchFn i h) = matchesName n := by
    funext c; simp [Function.comp, matchesName_patchFn]
  rw [hp]

/-- Job lookup commutes with cancellation. -/
theorem find?_map_cancelFn (l : List (Nat × SysJob)) (h k : Nat) :
    (l.map (cancelFn h)).find? (fun p => p.1 = k)
      = (l.find? (fun p => p.1 = k)).map (cancelFn h) := by
  rw [List.find?_map]
  have hp : ((fun p => decide (p.1 = k)) ∘ cancelFn h)
      = (fun p : Nat × SysJob => decide (p.1 = k)) := by
    funext p; simp [Function.comp, cancelFn_fst]
  rw [hp]

/-- What cancellation does to a job lookup: the canceled handle moves
to the canceled state when it was still active, every other lookup is
untouched. -/
theorem sysGet_cancel (s : State) (h k : Nat) :
    sysGet (cancel s h) k = (sysGet s k).map (fun j =>
      if k = h ∧ (j.state = .pending ∨ j.state = .inProgress) then
        { j with state := JobState.canceled } else j) := by
  show ((s.jobs.map (cancelFn h)).find? (fun p => p.1 = k)).map Prod.snd = _
  rw [find?_map_cancelFn]
  cases hf : s.jobs.find? (fun p => p.1 = k) with
  | none => simp [sysGet, hf]
  | some p =>
    have hpk : p.1 = k := by simpa using List.find?_some hf
    subst hpk
    simp only [sysGet, hf, Option.map_some]
    by_cases hc : p.1 = h ∧ (p.2.state = .pending ∨ p.2.state = .inProgress)
    · simp [cancelFn, hc]
    · simp [cancelFn, hc]

/-- Inversion of a successful scheduleNextRun: the next run time was
computed, a fresh pending rescheduler job was armed for it under the
next free handle, and the record was patched with that handle. -/
theorem scheduleNextRun_ok {P : CronParser} {s : State} {i : Nat} {last : Int}
    {sch : Schedule} {s' : State}
    (h : scheduleNextRun P s i last sch = .ok s') :
    ∃ t, calculateNextRun P last sch = .ok t ∧
      s' = { crons := s.crons.map (patchFn i s.nextJobId)
             nextCronId := s.nextCronId
             jobs := s.jobs ++ [(s.nextJobId,
               { state := .pending, scheduledTime := t, target := .rescheduler i })]
             nextJobId := s.nextJobId + 1 } := by
  unfold scheduleNextRun at h
  cases hc : calculateNextRun P last sch with
  | error e => rw [hc] at h; cases h
  | ok t =>
    rw [hc] at h
    refine ⟨t, rfl, ?_⟩
    cases h
    rfl

/-- A schedule the evaluator accepts always yields a next run time. -/
theorem calculateNextRun_ok_of_scheduleOk {P : CronParser} {sch : Schedule}
    (h : scheduleOk P sch = true) (last : Int) :
    ∃ t, calculateNextRun P last sch = .ok t := by
  cases sch with
  | interval ms => exact ⟨last + ms, rfl⟩
  | cron spec =>
    simp only [scheduleOk] at h
    exact ⟨P.next spec last, by simp [calculateNextRun, h]⟩

/-- A schedule the evaluator accepts always lets scheduleNextRun
succeed. -/
theorem scheduleNextRun_ok_of_scheduleOk {P : CronParser} {sch : Schedule}
    (h : scheduleOk P sch = true) (s : State) (i : Nat) (last : Int) :
    ∃ s', scheduleNextRun P s i last sch = .ok s' := by
  obtain ⟨t, ht⟩ := calculateNextRun_ok_of_scheduleOk h last
  exact ⟨_, by unfold scheduleNextRun; rw [ht]⟩

/-- The record register inserts before arming the first firing. -/
def insertedCron (s : State) (name : Option String) (sch : Schedule)
    (fh args : String) : Cron :=
  { id := s.nextCronId
    name := name
    schedule := sch
    functionHandle := fh
    args := args
    schedulerJobId := none
    executionJobId := none }

/-- uniqueByName answers none exactly on an empty filter. -/
theorem uniqueByName_ok_none {s : State} {n : String}
    (h : uniqueByName s n = .ok none) : s.crons.filter (matchesName n) = [] := by
  unfold uniqueByName at h
  cases hf : s.crons.filter (matchesName n) with
  | nil => rfl
  | cons c rest =>
    rw [hf] at h
    cases rest with
    | nil => simp at h
    | cons d rest2 => simp at h

/-- Inversion of a successful register: the checks passed, the record
was appended under the next free id, a first firing was armed and the
record patched with its handle. -/
theorem register_ok {P : CronParser} {s : State} {now : Int} {name : Option String}
    {sch : Schedule} {fh args : String} {s' : State} {i : Nat}
    (h : register P s now name sch fh args = .ok (s', i)) :
    i = s.nextCronId ∧
    checkName s name = .ok () ∧
    validateSchedule P sch = .ok () ∧
    ∃ t, calculateNextRun P now sch = .ok t ∧
      s' = { crons := (s.crons ++ [insertedCron s name sch fh args]).map
               (patchFn s.nextCronId s.nextJobId)
             nextCronId := s.nextCronId + 1
             jobs := s.jobs ++ [(s.nextJobId,
               { state := .pending, scheduledTime := t, target := .rescheduler s.nextCronId })]
             nextJobId := s.nextJobId + 1 } := by
  unfold register at h
  cases hn : checkName s name with
  | error e => rw [hn] at h; simp at h
  | ok u =>
    cases u
    simp only [hn] at h
    cases hv : validateSchedule P sch with
    | error e => rw [hv] at h; simp at h
    | ok v =>
      cases v
      simp only [hv] at h
      split at h
      · cases h
      · rename_i s2 hs
        cases h
        obtain ⟨t, ht, h2⟩ := scheduleNextRun_ok hs
        refine ⟨rfl, rfl, rfl, t, ht, ?_⟩
        rw [h2]
        rfl

/-- checkName passes on a non-empty name only when no record carries
it. -/
theorem checkName_ok_nonempty {s : State} {n : String}
    (hn : n ≠ "") (h : checkName s (some n) = .ok ()) :
    s.crons.filter (matchesName n) = [] := by
  simp only [checkName] at h
  rw [if_neg hn] at h
  cases hu : uniqueByName s n with
  | error e => rw [hu] at h; cases h
  | ok o =>
    rw [hu] at h
    cases o with
    | some c => simp at h
    | none => exact uniqueByName_ok_none hu

/-- What register does to each name count: the new record adds one to
its own name, and a non-empty registered name was previously unused. -/
theorem register_nameCount {P : CronParser} {s : State} {now : Int}
    {name : Option String} {sch : Schedule} {fh args : String} {s' : State} {i : Nat}
    (h : register P s now name sch fh args = .ok (s', i)) (n : String) :
    nameCount s' n = nameCount s n + (if name = some n then 1 else 0) ∧
    (name = some n → n ≠ "" → nameCount s n = 0) := by
  obtain ⟨-, hck, -, t, -, h2⟩ := register_ok h
  constructor
  · rw [h2]
    show List.length (((s.crons ++ [insertedCron s name sch fh args]).map
        (patchFn s.nextCronId s.nextJobId)).filter (matchesName n))
      = nameCount s n + (if name = some n then 1 else 0)
    rw [filter_name_map_patchFn, List.length_map, List.filter_append,
      List.length_append]
    congr 1
    by_cases hname : name = some n
    · simp [List.filter_cons, matchesName, insertedCron, hname]
    · have hm : matchesName n (insertedCron s name sch fh args) = false := by
        simp [matchesName, insertedCron, hname]
      simp [List.filter_cons, hm, hname]
  · intro hname hn
    subst hname
    unfold nameCount
    rw [checkName_ok_nonempty hn hck]
    rfl

/-- A successful del removes exactly the records bearing the resolved
id and leaves the rest of the table alone. -/
theorem del_ok_crons {s : State} {ident : Identifier} {s' : State}
    (h : del s ident = .ok s') :
    ∃ cid, s'.crons = s.crons.filter (fun x => x.id ≠ cid) := by
  unfold del at h
  split at h
  · cases h
  · rename_i c heq
    split at h
    · cases h
    · split at h
      · cases h
        exact ⟨c.id, rfl⟩
      · cases h
        exact ⟨c.id, rfl⟩

/-- A successful rescheduler firing only patches scheduling handles in
the record table. -/
theorem rescheduler_ok_crons {P : CronParser} {s : State} {now : Int} {i : Nat}
    {s' : State} (h : rescheduler P s now i = .ok s') :
    ∃ hdl, s'.crons = s.crons.map (patchFn i hdl) := by
  simp only [rescheduler] at h
  split at h
  · cases h
  · split at h
    · cases h
    · split at h
      · cases h
      · split at h
        · cases h
        · split at h
          · obtain ⟨t, ht, h2⟩ := scheduleNextRun_ok h
            subst h2
            exact ⟨_, rfl⟩
          · obtain ⟨t, ht, h2⟩ := scheduleNextRun_ok h
            subst h2
            exact ⟨_, rfl⟩

/-- register preserves per-non-empty-name uniqueness. -/
theorem namesUnique_register {P : CronParser} {s : State} {now : Int}
    {name : Option String} {sch : Schedule} {fh args : String} {s' : State} {i : Nat}
    (h : register P s now name sch fh args = .ok (s', i))
    (hs : NamesUnique s) : NamesUnique s' := by
  intro n hn
  obtain ⟨hcount, hzero⟩ := register_nameCount h n
  rw [hcount]
  by_cases hname : name = some n
  · rw [hzero hname hn, if_pos hname]
  · rw [if_neg hname]
    simpa using hs n hn

/-- del preserves per-non-empty-name uniqueness. -/
theorem namesUnique_del {s : State} {ident : Identifier} {s' : State}
    (h : del s ident = .ok s') (hs : NamesUnique s) : NamesUnique s' := by
  intro n hn
  obtain ⟨cid, hc⟩ := del_ok_crons h
  have hsub : (s'.crons.filter (matchesName n)).length
      ≤ (s.crons.filter (matchesName n)).length := by
    rw [hc]
    exact List.Sublist.length_le
      (List.Sublist.filter _ (List.filter_sublist _))
  exact le_trans hsub (hs n hn)

/-- rescheduler preserves per-non-empty-name uniqueness. -/
theorem namesUnique_rescheduler {P : CronParser} {s : State} {now : Int} {i : Nat}
    {s' : State} (h : rescheduler P s now i = .ok s')
    (hs : NamesUnique s) : NamesUnique s' := by
  intro n hn
  obtain ⟨hdl, hc⟩ := rescheduler_ok_crons h
  have hcc : nameCount s' n = nameCount s n := by
    unfold nameCount
    rw [hc, filter_name_map_patchFn, List.length_map]
  rw [hcc]
  exact hs n hn

/-- Looking up a freshly appended job finds it. -/
theorem jobsFind_append_fresh (l : List (Nat × SysJob)) (k : Nat) (x : SysJob)
    (hfresh : ∀ p ∈ l, p.1 ≠ k) :
    ((l ++ [(k, x)]).find? (fun p => p.1 = k)).map Prod.snd = some x := by
  rw [List.find?_append]
  have h1 : l.find? (fun p => p.1 = k) = none :=
    List.find?_eq_none.mpr (fun p hp => by simpa using hfresh p hp)
  rw [h1]
  simp

/-- C1: When a firing finds its record and a still-active scheduling
handle, and the record points at an execution job that is still
pending or in progress, the firing dispatches no payload, yet still
applies calculateNextRun to the handle's scheduled time, arms a fresh
rescheduler job for the result, and patches the record's
schedulerJobId to the newly returned handle. -/
theorem rescheduler_overlap_skips_payload (P : CronParser) (s : State) (now : Int)
    (i : Nat) (c : Cron) (h : Nat) (job : SysJob) (e : Nat) (ej : SysJob) (nxt : Int)
    (hc : dbGet s i = some c)
    (hsj : c.schedulerJobId = some h)
    (hjob : sysGet s h = some job)
    (hact : job.state = .pending ∨ job.state = .inProgress)
    (he : c.executionJobId = some e)
    (hej : sysGet s e = some ej)
    (hejact : ej.state = .pending ∨ ej.state = .inProgress)
    (hnext : calculateNextRun P job.scheduledTime c.schedule = .ok nxt)
    (hkeys : KeysBelow s) :
    ∃ s', rescheduler P s now i = .ok s' ∧
      payloadJobs s' = payloadJobs s ∧
      dbGet s' i = some { c with schedulerJobId := some s.nextJobId } ∧
      sysGet s' s.nextJobId
        = some { state := .pending, scheduledTime := nxt, target := .rescheduler i } := by
  have hcond : ¬(job.state ≠ JobState.pending ∧ job.state ≠ JobState.inProgress) := by
    rcases hact with h1 | h1 <;> simp [h1]
  have hrun : decide (ej.state = JobState.pending ∨ ej.state = JobState.inProgress) = true :=
    decide_eq_true hejact
  have hres : rescheduler P s now i
      = scheduleNextRun P s i job.scheduledTime c.schedule := by
    simp only [rescheduler, hc, hsj, hjob, he, hej, hrun, if_neg hcond, if_pos]
  have hcid : c.id = i := by simpa using List.find?_some hc
  refine ⟨patchSchedulerJobId (runAt s nxt (Target.rescheduler i)).1 i s.nextJobId,
    ?_, ?_, ?_, ?_⟩
  · rw [hres]
    unfold scheduleNextRun
    rw [hnext]
    rfl
  · show List.filter _ (s.jobs ++ [(s.nextJobId,
      { state := .pending, scheduledTime := nxt, target := .rescheduler i })]) = _
    rw [List.filter_append]
    simp [payloadJobs]
  · show (List.map (patchFn i s.nextJobId) s.crons).find? (fun c => c.id = i) = _
    have hcf : s.crons.find? (fun c => c.id = i) = some c := hc
    rw [find?_id_map_patchFn, hcf]
    show some (patchFn i s.nextJobId c) = _
    unfold patchFn
    rw [if_pos hcid]
  · show ((s.jobs ++ [(s.nextJobId,
      ({ state := .pending, scheduledTime := nxt, target := .rescheduler i } : SysJob))]).find?
        (fun p => p.1 = s.nextJobId)).map Prod.snd = _
    exact jobsFind_append_fresh s.jobs s.nextJobId _
      (fun p hp => Nat.ne_of_lt (hkeys p hp))

/-- One successful firing of an interval job with no outstanding
execution: the payload is dispatched, then a fresh rescheduler job is
armed for the previous scheduled time plus the interval, and the
record is patched with the new handle. -/
theorem rescheduler_interval_step (P : CronParser) (s : State) (now : Int)
    (i : Nat) (c : Cron) (h : Nat) (job : SysJob) (ms : Int)
    (hc : dbGet s i = some c)
    (hsch : c.schedule = .interval ms)
    (hexec : c.executionJobId = none)
    (hsj : c.schedulerJobId = some h)
    (hjob : sysGet s h = some job)
    (hstate : job.state = .pending)
    (hkeys : KeysBelow s) :
    ∃ s', rescheduler P s now i = .ok s' ∧
      dbGet s' i = some { c with schedulerJobId := some (s.nextJobId + 1) } ∧
      sysGet s' (s.nextJobId + 1) = some
        { state := .pending, scheduledTime := job.scheduledTime + ms,
          target := .rescheduler i } ∧
      KeysBelow s' ∧
      armedTimes s' i = armedTimes s i ++ [job.scheduledTime + ms] := by
  have hcond : ¬(job.state ≠ JobState.pending ∧ job.state ≠ JobState.inProgress) := by
    simp [hstate]
  have hcid : c.id = i := by simpa using List.find?_some hc
  have hnext : calculateNextRun P job.scheduledTime c.schedule
      = .ok (job.scheduledTime + ms) := by rw [hsch]; rfl
  have hres : rescheduler P s now i
      = scheduleNextRun P (runAfter s now 0 (Target.payload c.functionHandle c.args)).1
          i job.scheduledTime c.schedule := by
    simp only [rescheduler, hc, hsj, hjob, hexec, if_neg hcond]
    rfl
  refine ⟨patchSchedulerJobId
      (runAt (runAfter s now 0 (Target.payload c.functionHandle c.args)).1
        (job.scheduledTime + ms) (Target.rescheduler i)).1 i (s.nextJobId + 1),
    ?_, ?_, ?_, ?_, ?_⟩
  · rw [hres]
    unfold scheduleNextRun
    rw [hnext]
    rfl
  · show (s.crons.map (patchFn i (s.nextJobId + 1))).find? (fun c => c.id = i) = _
    have hcf : s.crons.find? (fun c => c.id = i) = some c := hc
    rw [find?_id_map_patchFn, hcf]
    show some (patchFn i (s.nextJobId + 1) c) = _
    unfold patchFn
    rw [if_pos hcid]
  · show (((s.jobs ++ [(s.nextJobId, payJob now c.functionHandle c.args)]) ++
        [(s.nextJobId + 1, armJob (job.scheduledTime + ms) i)]).find?
          (fun p => p.1 = s.nextJobId + 1)).map Prod.snd = _
    refine jobsFind_append_fresh _ _ _ ?_
    intro p hp
    rcases List.mem_append.mp hp with hold | hnew
    · exact Nat.ne_of_lt (Nat.lt_succ_of_lt (hkeys p hold))
    · rw [List.mem_singleton.mp hnew]
      show s.nextJobId ≠ s.nextJobId + 1
      omega
  · intro p hp
    show p.1 < s.nextJobId + 1 + 1
    have hp2 : p ∈ (s.jobs ++ [(s.nextJobId, payJob now c.functionHandle c.args)]) ++
        [(s.nextJobId + 1, armJob (job.scheduledTime + ms) i)] := hp
    rcases List.mem_append.mp hp2 with hmid | hlast
    · rcases List.mem_append.mp hmid with hold | hpay
      · exact Nat.lt_succ_of_lt (Nat.lt_succ_of_lt (hkeys p hold))
      · rw [List.mem_singleton.mp hpay]
        show s.nextJobId < s.nextJobId + 1 + 1
        omega
    · rw [List.mem_singleton.mp hlast]
      show s.nextJobId + 1 < s.nextJobId + 1 + 1
      omega
  · show List.filterMap _ ((s.jobs ++ [(s.nextJobId, payJob now c.functionHandle c.args)]) ++
        [(s.nextJobId + 1, armJob (job.scheduledTime + ms) i)]) = _
    rw [List.filterMap_append, List.filterMap_append]
    simp [armedTimes, payJob, armJob]

/-- A firing advances the cadence invariant by one step, whatever the
wall clock says at firing time. -/
theorem cadenceInv_step {P : CronParser} {i : Nat} {ms t0 : Int} {k : Nat} {s : State}
    (hinv : CadenceInv i ms t0 k s) (now : Int) :
    ∃ s', rescheduler P s now i = .ok s' ∧ CadenceInv i ms t0 (k + 1) s' := by
  obtain ⟨c, h, job, hc, hsch, hexec, hsj, hjob, hstate, htime, hkeys, harmed⟩ := hinv
  obtain ⟨s', hok, hdb, hsys, hkeys', harmed'⟩ :=
    rescheduler_interval_step P s now i c h job ms hc hsch hexec hsj hjob hstate hkeys
  refine ⟨s', hok, { c with schedulerJobId := some (s.nextJobId + 1) },
    s.nextJobId + 1, armJob (job.scheduledTime + ms) i,
    hdb, hsch, hexec, rfl, hsys, rfl, ?_, hkeys', ?_⟩
  · show job.scheduledTime + ms = t0 + ms * ((((k + 1 : Nat)) : Int) + 1)
    rw [htime]
    push_cast
    ring
  · rw [harmed', harmed, htime]
    conv_rhs => rw [List.range_succ]
    rw [List.map_append]
    congr 1
    simp only [List.map_cons, List.map_nil]
    congr 1
    push_cast
    ring

/-- Any number of consecutive successful firings preserves the cadence
invariant, advancing its index by the number of firings. -/
theorem fireAll_cadence (P : CronParser) (i : Nat) (ms t0 : Int) :
    ∀ (nows : List Int) (k : Nat) (s : State), CadenceInv i ms t0 k s →
    ∃ s', fireAll P i s nows = .ok s' ∧ CadenceInv i ms t0 (k + nows.length) s' := by
  intro nows
  induction nows with
  | nil =>
    intro k s hinv
    exact ⟨s, rfl, by simpa using hinv⟩
  | cons now rest ih =>
    intro k s hinv
    obtain ⟨s1, hok, hinv1⟩ := cadenceInv_step hinv now
    obtain ⟨s', hrest, hinv'⟩ := ih (k + 1) s1 hinv1
    refine ⟨s', ?_, ?_⟩
    · show fireAll P i s (now :: rest) = .ok s'
      unfold fireAll
      rw [hok]
      exact hrest
    · have hlen : k + (now :: rest).length = k + 1 + rest.length := by
        simp [List.length_cons]
        omega
      rw [hlen]
      exact hinv'

/-- C2: For an interval job of period ms whose first firing was armed
for t0 + ms (the post-register shape captured by CadenceInv at index
0), any N consecutive successful firings arm scheduled times that make
the full armed sequence exactly t0 + ms, t0 + 2ms, ..., anchored to
the scheduled time stored on each scheduling handle and therefore
independent of the wall-clock times (nows) at which the firings
actually execute. -/
theorem interval_cadence_drift_free (P : CronParser) (s : State) (i : Nat)
    (ms t0 : Int) (nows : List Int)
    (hinv : CadenceInv i ms t0 0 s) :
    ∃ s', fireAll P i s nows = .ok s' ∧
      armedTimes s' i = (List.range (nows.length + 1)).map
        (fun j : Nat => t0 + ms * ((j : Int) + 1)) := by
  obtain ⟨s', hok, hinv'⟩ := fireAll_cadence P i ms t0 nows 0 s hinv
  obtain ⟨c, h, job, -, -, -, -, -, -, -, -, harmed⟩ := hinv'
  exact ⟨s', hok, by simpa using harmed⟩

/-- C3: The rescheduler aborts with an error (the transaction aborts,
so no payload is dispatched and no new scheduling handle is armed) if
and only if the record is absent, or its schedulerJobId is absent, or
the scheduling handle has no job record, or that job is in a state
other than pending and inProgress.  The hypothesis that stored
schedules pass the evaluator holds for every record created through
register, which validates before inserting. -/
theorem rescheduler_error_iff (P : CronParser) (s : State) (now : Int) (i : Nat)
    (hval : SchedulesOk P s) :
    (∃ e, rescheduler P s now i = .error e) ↔
      (dbGet s i = none ∨
       ∃ c, dbGet s i = some c ∧
         (c.schedulerJobId = none ∨
          ∃ h, c.schedulerJobId = some h ∧
            (sysGet s h = none ∨
             ∃ j, sysGet s h = some j ∧
               ¬(j.state = .pending ∨ j.state = .inProgress)))) := by
  cases hc : dbGet s i with
  | none =>
    refine iff_of_true ⟨"Cron not found", ?_⟩ (Or.inl rfl)
    simp [rescheduler, hc]
  | some c =>
    cases hsj : c.schedulerJobId with
    | none =>
      refine iff_of_true ⟨"Cron not scheduled", ?_⟩ (Or.inr ⟨c, rfl, Or.inl hsj⟩)
      simp [rescheduler, hc, hsj]
    | some h =>
      cases hjob : sysGet s h with
      | none =>
        refine iff_of_true ⟨"Scheduler job not found", ?_⟩
          (Or.inr ⟨c, rfl, Or.inr ⟨h, hsj, Or.inl hjob⟩⟩)
        simp [rescheduler, hc, hsj, hjob]
      | some j =>
        by_cases hst : j.state = JobState.pending ∨ j.state = JobState.inProgress
        · have hcond : ¬(j.state ≠ JobState.pending ∧ j.state ≠ JobState.inProgress) := by
            rcases hst with h1 | h1 <;> simp [h1]
          have hok : ∃ s2, rescheduler P s now i = .ok s2 := by
            have hschedok : scheduleOk P c.schedule = true :=
              hval c (List.mem_of_find?_eq_some hc)
            simp only [rescheduler, hc, hsj, hjob, if_neg hcond]
            split
            · exact scheduleNextRun_ok_of_scheduleOk hschedok s i j.scheduledTime
            · exact scheduleNextRun_ok_of_scheduleOk hschedok _ i j.scheduledTime
          refine iff_of_false ?_ ?_
          · rintro ⟨e, he⟩
            obtain ⟨s2, h2⟩ := hok
            rw [h2] at he
            cases he
          · rintro (hno | ⟨c2, hc2, hno2⟩)
            · cases hno
            · injection hc2 with hcc
              subst hcc
              rcases hno2 with hno2 | ⟨h2, hh2, hno3⟩
              · rw [hsj] at hno2; cases hno2
              · rw [hsj] at hh2
                cases hh2
                rcases hno3 with hno3 | ⟨j2, hj2, hno4⟩
                · rw [hjob] at hno3; cases hno3
                · rw [hjob] at hj2
                  cases hj2
                  exact hno4 hst
        · have hcond : j.state ≠ JobState.pending ∧ j.state ≠ JobState.inProgress := by
            constructor
            · intro hx; exact hst (Or.inl hx)
            · intro hx; exact hst (Or.inr hx)
          refine iff_of_true ⟨"Running in a job with an unexpected state", ?_⟩
            (Or.inr ⟨c, rfl, Or.inr ⟨h, hsj, Or.inr ⟨j, hjob, hst⟩⟩⟩)
          simp [rescheduler, hc, hsj, hjob, hcond]

/-- C5 (amended): register rejects, with an error and - because the
whole transaction aborts - no side effect, every call whose interval
is below 1000 ms, whose cron expression the evaluator rejects, or
whose name is a non-empty string already carried by a live record.
(The empty-string name escapes the duplicate check by JavaScript
truthiness; see the counterexample.) -/
theorem register_invalid_rejected (P : CronParser) (s : State) (now : Int)
    (name : Option String) (sch : Schedule) (fh args : String) :
    ((∃ ms, sch = Schedule.interval ms ∧ ms < 1000) →
      ∃ e, register P s now name sch fh args = .error e) ∧
    ((∃ spec, sch = Schedule.cron spec ∧ P.valid spec = false) →
      ∃ e, register P s now name sch fh args = .error e) ∧
    (∀ n, name = some n → n ≠ "" → nameCount s n ≠ 0 →
      ∃ e, register P s now name sch fh args = .error e) := by
  refine ⟨?_, ?_, ?_⟩
  · rintro ⟨ms, rfl, hms⟩
    unfold register
    cases hn : checkName s name with
    | error e => exact ⟨e, rfl⟩
    | ok u =>
      cases u
      have hv : validateSchedule P (Schedule.interval ms)
          = .error "Interval must be at least 1000ms" := by
        simp only [validateSchedule]
        rw [if_pos hms]
      exact ⟨"Interval must be at least 1000ms", by rw [hv]⟩
  · rintro ⟨spec, rfl, hspec⟩
    unfold register
    cases hn : checkName s name with
    | error e => exact ⟨e, rfl⟩
    | ok u =>
      cases u
      have hv : validateSchedule P (Schedule.cron spec)
          = .error "Invalid cronspec" := by
        simp only [validateSchedule]
        rw [hspec]
        rfl
      exact ⟨"Invalid cronspec", by rw [hv]⟩
  · rintro n rfl hne hcount
    unfold register
    cases hn : checkName s (some n) with
    | error e => exact ⟨e, rfl⟩
    | ok u =>
      cases u
      exact absurd (congrArg List.length (checkName_ok_nonempty hne hn))
        (by simpa [nameCount] using hcount)

/-- C6 (amended): in every state reachable from the empty deployment
by register, get, list, del and rescheduler operations, at most one
live record carries any given non-empty name.  (Records without a name
are unconstrained, and so - because JavaScript truthiness skips the
duplicate check for them - are records named by the empty string; see
the counterexample.) -/
theorem reachable_names_unique (P : CronParser) (s : State)
    (h : Reachable P s) : NamesUnique s := by
  induction h with
  | init =>
    intro n hn
    simp [nameCount, initState]
  | step hr hstep ih =>
    cases hstep with
    | ofRegister now name sch fh args s2 i hreg => exact namesUnique_register hreg ih
    | ofDel ident s2 hdel => exact namesUnique_del hdel ih
    | ofRescheduler now i s2 hres => exact namesUnique_rescheduler hres ih
    | ofGet ident => exact ih
    | ofList => exact ih

/-- uniqueByName answers a record exactly on a singleton filter. -/
theorem uniqueByName_ok_some {s : State} {n : String} {c : Cron}
    (h : uniqueByName s n = .ok (some c)) :
    s.crons.filter (matchesName n) = [c] := by
  unfold uniqueByName at h
  cases hf : s.crons.filter (matchesName n) with
  | nil => rw [hf] at h; cases h
  | cons d rest =>
    rw [hf] at h
    cases rest with
    | nil =>
      injection h with h1
      injection h1 with h2
      rw [h2]
    | cons d2 rest2 => cases h

/-- C7 (amended): after every successful register on a store whose
record ids sit below the id allocator, get on the returned id yields a
record with a non-null scheduling handle; and when the supplied name
is non-empty, get on that name does too.  (For an empty-string name
the duplicate check is skipped, and a later get by that name can hit
several records and throw; see the counterexample.) -/
theorem register_then_get_handle (P : CronParser) (s : State) (now : Int)
    (name : Option String) (sch : Schedule) (fh args : String) (s' : State) (i : Nat)
    (hids : IdsBelow s)
    (h : register P s now name sch fh args = .ok (s', i)) :
    (∃ c, get s' (.id i) = .ok (some c) ∧ c.schedulerJobId.isSome = true) ∧
    (∀ n, name = some n → n ≠ "" →
      ∃ c, get s' (.name n) = .ok (some c) ∧ c.schedulerJobId.isSome = true) := by
  obtain ⟨hi, hck, -, t, -, h2⟩ := register_ok h
  subst hi
  subst h2
  constructor
  · refine ⟨patchFn s.nextCronId s.nextJobId (insertedCron s name sch fh args), ?_, ?_⟩
    · show Except.ok (((s.crons ++ [insertedCron s name sch fh args]).map
        (patchFn s.nextCronId s.nextJobId)).find? (fun c => c.id = s.nextCronId)) = _
      rw [find?_id_map_patchFn, List.find?_append]
      have h1 : s.crons.find? (fun c => c.id = s.nextCronId) = none :=
        List.find?_eq_none.mpr (fun c hc => by simpa using Nat.ne_of_lt (hids c hc))
      rw [h1]
      simp [insertedCron]
    · simp [patchFn, insertedCron]
  · intro n hname hne
    subst hname
    refine ⟨patchFn s.nextCronId s.nextJobId (insertedCron s (some n) sch fh args), ?_, ?_⟩
    · have hfil : ((s.crons ++ [insertedCron s (some n) sch fh args]).map
          (patchFn s.nextCronId s.nextJobId)).filter (matchesName n)
          = [patchFn s.nextCronId s.nextJobId (insertedCron s (some n) sch fh args)] := by
        rw [filter_name_map_patchFn, List.filter_append, checkName_ok_nonempty hne hck]
        simp [matchesName, insertedCron]
      show uniqueByName _ n = _
      unfold uniqueByName
      show (match ((s.crons ++ [insertedCron s (some n) sch fh args]).map
          (patchFn s.nextCronId s.nextJobId)).filter (matchesName n) with
        | [] => Except.ok none
        | [c] => Except.ok (some c)
        | _ => Except.error "unique query returned more than one result") = _
      rw [hfil]
    · simp [patchFn, insertedCron]

theorem resolveIdent_of_get {s : State} {ident : Identifier} {c : Cron}
    (hres : get s ident = .ok (some c)) : resolveIdent s ident = .ok c := by
  cases ident with
  | id i =>
    have hdb : dbGet s i = some c := by injection hres
    simp only [resolveIdent]
    rw [hdb]
  | name n =>
    have hun : uniqueByName s n = .ok (some c) := hres
    simp only [resolveIdent]
    rw [hun]

/-- An identifier get answers absence for fails del resolution with
the not-found error. -/
theorem resolveIdent_of_get_none {s : State} {ident : Identifier}
    (hres : get s ident = .ok none) :
    resolveIdent s ident = .error "Cron not found" := by
  cases ident with
  | id i =>
    have hdb : dbGet s i = none := by injection hres
    simp only [resolveIdent]
    rw [hdb]
  | name n =>
    have hun : uniqueByName s n = .ok none := hres
    simp only [resolveIdent]
    rw [hun]

/-- del behaves, after resolving its identifier to a record, exactly
as the tail of its handler: not-scheduled error without a scheduling
handle, otherwise cancel both handles and delete the record. -/
theorem del_eq_of_resolved {s : State} {ident : Identifier} {c : Cron}
    (hres : get s ident = .ok (some c)) :
    del s ident = (match c.schedulerJobId with
      | none => .error "Cron not scheduled"
      | some h =>
        let s1 := cancel s h
        let s2 := match c.executionJobId with
          | some e => cancel s1 e
          | none => s1
        .ok { s2 with crons := s2.crons.filter (fun x => x.id ≠ c.id) }) := by
  unfold del
  rw [resolveIdent_of_get hres]

/-- C8: del fails with the not-found error when the identifier
resolves to no record, fails with the not-scheduled error when the
resolved record has no scheduling handle, and otherwise cancels the
scheduling handle (and the execution handle when present, when they
are still active), removes the record, and leaves a state in which get
on the same identifier answers absence. -/
theorem del_spec (s : State) (ident : Identifier) :
    (get s ident = .ok none → del s ident = .error "Cron not found") ∧
    (∀ c, get s ident = .ok (some c) → c.schedulerJobId = none →
      del s ident = .error "Cron not scheduled") ∧
    (∀ c h, get s ident = .ok (some c) → c.schedulerJobId = some h →
      ∃ s', del s ident = .ok s' ∧
        get s' ident = .ok none ∧
        s'.crons = s.crons.filter (fun x => x.id ≠ c.id) ∧
        (∀ j, sysGet s h = some j → (j.state = .pending ∨ j.state = .inProgress) →
          ∃ j', sysGet s' h = some j' ∧ j'.state = .canceled) ∧
        (∀ e j, c.executionJobId = some e → sysGet s e = some j →
          (j.state = .pending ∨ j.state = .inProgress) →
          ∃ j', sysGet s' e = some j' ∧ j'.state = .canceled)) := by
  refine ⟨?_, ?_, ?_⟩
  · intro hget
    unfold del
    rw [resolveIdent_of_get_none hget]
  · intro c hget hnone
    rw [del_eq_of_resolved hget, hnone]
  · intro c h hget hsome
    have hd := del_eq_of_resolved hget
    rw [hsome] at hd
    have hgone : ∀ (s2 : State), s2.crons = s.crons →
        get { s2 with crons := s2.crons.filter (fun x => x.id ≠ c.id) } ident
          = .ok none := by
      intro s2 hcr
      cases ident with
      | id i =>
        have hdb : dbGet s i = some c := by injection hget
        have hcid : c.id = i := by simpa using List.find?_some hdb
        show Except.ok ((s2.crons.filter (fun x => x.id ≠ c.id)).find?
          (fun x => x.id = i)) = _
        have : (s2.crons.filter (fun x => x.id ≠ c.id)).find?
            (fun x => x.id = i) = none := by
          refine List.find?_eq_none.mpr ?_
          intro x hx
          have hxne : x.id ≠ c.id := by
            have := List.of_mem_filter hx
            simpa using this
          simp [hcid ▸ hxne]
        rw [this]
      | name n =>
        have hun : uniqueByName s n = .ok (some c) := hget
        have hfil := uniqueByName_ok_some hun
        have hf2 : (s2.crons.filter (fun x => x.id ≠ c.id)).filter (matchesName n)
            = [] := by
          rw [List.filter_comm, hcr, hfil]
          simp
        show (match (s2.crons.filter (fun x => x.id ≠ c.id)).filter (matchesName n) with
          | [] => Except.ok none
          | [c] => Except.ok (some c)
          | _ => Except.error "unique query returned more than one result") = _
        rw [hf2]
    cases hexec : c.executionJobId with
    | none =>
      rw [hexec] at hd
      refine ⟨_, hd, hgone (cancel s h) rfl, rfl, ?_, ?_⟩
      · intro j hj hact
        show ∃ j', sysGet (cancel s h) h = some j' ∧ j'.state = .canceled
        rw [sysGet_cancel, hj]
        refine ⟨_, rfl, ?_⟩
        rcases hact with h1 | h1 <;> simp [h1]
      · intro e j he
        cases he
    | some e =>
      rw [hexec] at hd
      refine ⟨_, hd, hgone (cancel (cancel s h) e) rfl, rfl, ?_, ?_⟩
      · intro j hj hact
        show ∃ j', sysGet (cancel (cancel s h) e) h = some j' ∧ j'.state = .canceled
        rw [sysGet_cancel, sysGet_cancel, hj]
        refine ⟨_, rfl, ?_⟩
        rcases hact with h1 | h1 <;> by_cases heh : h = e <;> simp [h1, heh]
      · intro e2 j he2 hj hact
        injection he2 with he2
        subst he2
        show ∃ j', sysGet (cancel (cancel s h) e) e = some j' ∧ j'.state = .canceled
        rw [sysGet_cancel, sysGet_cancel, hj]
        refine ⟨_, rfl, ?_⟩
        rcases hact with h1 | h1 <;> by_cases heh : e = h <;> simp [h1, heh]

/-- C9: get never throws for absence: with no matching record it
answers null, and with exactly one matching record it answers that
record, for both identifier kinds. -/
theorem get_spec (s : State) (ident : Identifier) :
    (identMatches s ident = [] → get s ident = .ok none) ∧
    (∀ c, identMatches s ident = [c] → get s ident = .ok (some c)) := by
  cases ident with
  | id i =>
    constructor
    · intro h
      show Except.ok (s.crons.find? (fun c => c.id = i)) = _
      rw [find?_eq_none_of_filter_nil h]
    · intro c h
      show Except.ok (s.crons.find? (fun c => c.id = i)) = _
      rw [find?_eq_head?_filter]
      have h2 : s.crons.filter (fun c => c.id = i) = [c] := h
      rw [h2]
      rfl
  | name n =>
    constructor
    · intro h
      show uniqueByName s n = _
      unfold uniqueByName
      have h2 : s.crons.filter (matchesName n) = [] := h
      rw [h2]
    · intro c h
      show uniqueByName s n = _
      unfold uniqueByName
      have h2 : s.crons.filter (matchesName n) = [c] := h
      rw [h2]

/-- C4: For every timestamp t and every interval schedule with
ms ≥ 1000, calculateNextRun (the code behind the spec name
computeNextRun) returns exactly t + ms — pure arithmetic on the
previous scheduled time, with no dependence on the current clock. -/
theorem calculateNextRun_interval_exact (P : CronParser) (t ms : Int)
    (hms : 1000 ≤ ms) :
    calculateNextRun P t (Schedule.interval ms) = .ok (t + ms) := by
  rfl

/-- Witness for C4 at t = 5, ms = 1000. -/
theorem calculateNextRun_interval_exact_witness :
    (1000 ≤ (1000 : Int)) ∧
      calculateNextRun P0 5 (Schedule.interval 1000) = .ok 1005 :=
  ⟨by decide, calculateNextRun_interval_exact P0 5 1000 (by decide)⟩

/-- C10: Firing on a record whose executionJobId points at a job the
scheduler has no record for treats the previous execution as finished:
the firing completes normally and dispatches the payload (one more
payload job), but - the runAfter handle being discarded - the record
keeps the stale executionJobId 5 instead of storing a fresh one. -/
theorem rescheduler_vanished_execution_dispatches :
    rescheduler P0 staleExecState 2500 0 = .ok staleExecResult ∧
    (payloadJobs staleExecResult).length = (payloadJobs staleExecState).length + 1 ∧
    dbGet staleExecResult 0 = some { staleExecCron with schedulerJobId := some 3 } ∧
    ({ staleExecCron with schedulerJobId := some 3 }).executionJobId = some 5 :=
  ⟨rfl, rfl, rfl, rfl⟩

/-- Counterexample to C5 as stated: exampleState1 holds a live record
named by the empty string, yet register with that same name succeeds
and inserts a second record, because JavaScript truthiness makes the
guard name && ... skip the duplicate check for the empty string. -/
theorem register_duplicate_empty_name_cex :
    nameCount exampleState1 "" = 1 ∧
    register P0 exampleState1 0 (some "") (Schedule.interval 1000) "g" "b"
      = .ok (exampleState2, 1) :=
  ⟨rfl, rfl⟩

/-- Counterexample to C6 as stated: a state with two live records
carrying the same (empty-string) name is reachable by two register
calls from the empty deployment. -/
theorem duplicate_empty_name_reachable_cex :
    Reachable P0 exampleState2 ∧ nameCount exampleState2 "" = 2 := by
  constructor
  · exact Reachable.step (Reachable.step Reachable.init
      (Step.ofRegister initState 0 (some "") (Schedule.interval 1000) "f" "a"
        exampleState1 0 rfl))
      (Step.ofRegister exampleState1 0 (some "") (Schedule.interval 1000) "g" "b"
        exampleState2 1 rfl)
  · rfl

/-- Counterexample to C7 as stated: a register call supplying the
empty-string name succeeds, yet get on that supplied name then throws
(the unique query hits two records) instead of returning the record. -/
theorem register_get_empty_name_cex :
    register P0 exampleState1 0 (some "") (Schedule.interval 1000) "g" "b"
      = .ok (exampleState2, 1) ∧
    get exampleState2 (.name "")
      = .error "unique query returned more than one result" :=
  ⟨rfl, rfl⟩

/-- Witness for C1 at the overlap scenario. -/
theorem rescheduler_overlap_skips_payload_witness :
    ∃ s', rescheduler P0 overlapState 2500 0 = .ok s' ∧
      payloadJobs s' = payloadJobs overlapState ∧
      dbGet s' 0 = some { overlapCron with schedulerJobId := some 3 } ∧
      sysGet s' 3
        = some { state := .pending, scheduledTime := 2000, target := .rescheduler 0 } :=
  rescheduler_overlap_skips_payload P0 overlapState 2500 0 overlapCron 1
    ({ state := .pending, scheduledTime := 1000, target := .rescheduler 0 }) 2
    ({ state := .inProgress, scheduledTime := 500, target := .payload "f" "a" }) 2000
    rfl rfl rfl (Or.inl rfl) rfl rfl (Or.inr rfl) rfl (by unfold KeysBelow; decide)

/-- Witness for C2: two firings of the 1000 ms job first armed for
1000, executing late at wall-clock 5000 and 12345, still arm exactly
1000, 2000, 3000. -/
theorem interval_cadence_drift_free_witness :
    ∃ s', fireAll P0 0 cadenceState [5000, 12345] = .ok s' ∧
      armedTimes s' 0 = (List.range 3).map (fun j : Nat => 0 + 1000 * ((j : Int) + 1)) :=
  interval_cadence_drift_free P0 cadenceState 0 1000 0 [5000, 12345]
    ⟨cadenceCron, 0,
      ({ state := .pending, scheduledTime := 1000, target := .rescheduler 0 }),
      rfl, rfl, rfl, rfl, rfl, rfl, by decide, by unfold KeysBelow; decide, by decide⟩

/-- Witness for C3 at the stale-firing scenario: the scheduling handle
has completed, so the firing aborts with an error. -/
theorem rescheduler_error_iff_witness :
    ∃ e, rescheduler P0 staleFiringState 0 0 = .error e :=
  (rescheduler_error_iff P0 staleFiringState 0 0 (by unfold SchedulesOk; decide)).mpr
    (Or.inr ⟨staleFiringCron, rfl, Or.inr ⟨1, rfl,
      Or.inr ⟨staleFiringJob, rfl, by decide⟩⟩⟩)

/-- Witness for C5: a 500 ms interval, a rejected cron expression, and
a duplicate non-empty name are each rejected. -/
theorem register_invalid_rejected_witness :
    (∃ e, register P0 initState 0 none (Schedule.interval 500) "f" "a" = .error e) ∧
    (∃ e, register P1 initState 0 none (Schedule.cron "bad") "f" "a" = .error e) ∧
    (∃ e, register P0 dailyState 0 (some "daily") (Schedule.interval 60000) "g" "b"
      = .error e) :=
  ⟨(register_invalid_rejected P0 initState 0 none (Schedule.interval 500) "f" "a").1
      ⟨500, rfl, by decide⟩,
   (register_invalid_rejected P1 initState 0 none (Schedule.cron "bad") "f" "a").2.1
      ⟨"bad", rfl, rfl⟩,
   (register_invalid_rejected P0 dailyState 0 (some "daily")
      (Schedule.interval 60000) "g" "b").2.2 "daily" rfl (by decide) (by decide)⟩

/-- Witness for C6 at a concrete reachable state. -/
theorem reachable_names_unique_witness : NamesUnique dailyState :=
  reachable_names_unique P0 dailyState
    (Reachable.step Reachable.init
      (Step.ofRegister initState 0 (some "daily") (Schedule.interval 60000) "f" "a"
        dailyState 0 rfl))

/-- Witness for C7: after registering the daily job, get by id and by
name both return a record with a non-null scheduling handle. -/
theorem register_then_get_handle_witness :
    (∃ c, get dailyState (.id 0) = .ok (some c) ∧ c.schedulerJobId.isSome = true) ∧
    (∃ c, get dailyState (.name "daily") = .ok (some c) ∧
      c.schedulerJobId.isSome = true) := by
  have h := register_then_get_handle P0 initState 0 (some "daily")
    (Schedule.interval 60000) "f" "a" dailyState 0 (by unfold IdsBelow; decide) rfl
  exact ⟨h.1, h.2 "daily" rfl (by decide)⟩

/-- Witness for C8: deleting the daily job by name succeeds, cancels
its pending scheduling handle, removes the record, and a subsequent
get answers absence. -/
theorem del_spec_witness :
    ∃ s', del dailyState (.name "daily") = .ok s' ∧
      get s' (.name "daily") = .ok none ∧
      s'.crons = dailyState.crons.filter (fun x => x.id ≠ dailyCron.id) ∧
      (∀ j, sysGet dailyState 0 = some j →
        (j.state = .pending ∨ j.state = .inProgress) →
        ∃ j', sysGet s' 0 = some j' ∧ j'.state = .canceled) ∧
      (∀ e j, dailyCron.executionJobId = some e → sysGet dailyState e = some j →
        (j.state = .pending ∨ j.state = .inProgress) →
        ∃ j', sysGet s' e = some j' ∧ j'.state = .canceled) :=
  (del_spec dailyState (.name "daily")).2.2 dailyCron 0 rfl rfl

/-- Witness for C9: get by an unknown name answers null and get by the
daily name answers the record. -/
theorem get_spec_witness :
    get dailyState (.name "nope") = .ok none ∧
    get dailyState (.name "daily") = .ok (some dailyCron) :=
  ⟨(get_spec dailyState (.name "nope")).1 rfl,
   (get_spec dailyState (.name "daily")).2 dailyCron rfl⟩

end Crons
